import Mathlib

/-!
Verification of the date/time column auto-detection logic of
`data_analysis.py` (`auto_convert_datetime`) and of the manual
date-conversion button handler, against the repository specification.

The table model is a shallow embedding of a pandas DataFrame as an ordered
list of named, dtyped columns.  Cell values are `num` (integer numerics),
`str` (text), `dt` (a date/time, stored as nanoseconds since the Unix
epoch, which is pandas `Timestamp` representation), and `missing`
(NaN/NaT).  External parsing facilities (`dateutil.parser.parse`,
`pd.to_datetime` on strings, `strptime`-style format parsing) and the
random sampler (`Series.sample`) are parameters gathered in an `Env`
record, so every theorem holds for every behaviour of those collaborators;
laws such as "a sample of `min 10 n` elements is drawn" are passed as
explicit hypotheses where a claim needs them.
-/

set_option autoImplicit false

namespace DataAnalysis

/-- A cell of a table: integer numeric, text, date/time (nanoseconds since
the epoch, as in pandas `Timestamp`), or missing (NaN/NaT). -/
inductive Value where
  | num : Int → Value
  | str : String → Value
  | dt : Int → Value
  | missing : Value
deriving DecidableEq, Repr

/-- The dtype of a column, as `pandas` tracks it. -/
inductive Dtype where
  | numeric
  | text
  | datetime
deriving DecidableEq, Repr

/-- A named column: its name, its dtype, and its cells in row order. -/
structure Col where
  name : String
  dtype : Dtype
  vals : List Value
deriving DecidableEq, Repr

/-- A DataFrame: an ordered list of named columns. -/
structure DF where
  cols : List Col
deriving DecidableEq, Repr

/-- The ordered column names of a DataFrame (`df.columns`). -/
def DF.names (df : DF) : List String := df.cols.map Col.name

/-- Column selection `df[n]`: the first column named `n`. -/
def findCol : List Col → String → Option Col
  | [], _ => none
  | c :: cs, n => if c.name = n then some c else findCol cs n

/-- Column selection `df[n]` on a DataFrame. -/
def lookup (df : DF) (n : String) : Option Col := findCol df.cols n

/-- Column assignment `df[n] = ...` on the column list: replace the column
named `n` in place, or append a new column at the end when absent. -/
def setCols : List Col → String → Dtype → List Value → List Col
  | [], n, d, vs => [⟨n, d, vs⟩]
  | c :: cs, n, d, vs => if c.name = n then ⟨n, d, vs⟩ :: cs else c :: setCols cs n d vs

/-- Column assignment `df[n] = ...` on a DataFrame. -/
def setCol (df : DF) (n : String) (d : Dtype) (vs : List Value) : DF :=
  ⟨setCols df.cols n d vs⟩

/-- External collaborators of the detector, abstracted: the permissive
date-string parser (`dateutil.parser.parse`), per-cell string parsing by
`pd.to_datetime` (returning the parsed epoch-nanoseconds, or `none` when
unparseable), `strptime`-style parsing against an explicit format string,
well-formedness of a format string (a bad directive makes `pd.to_datetime`
raise even under `errors=coerce`), and the random sampler used by
`Series.sample`. -/
structure Env where
  sampleSel : List Value → List Value
  duParse : String → Bool
  pdParseStr : String → Option Int
  strpParse : String → String → Option Int
  strpValid : String → Bool

/-- Python `str(val)` as applied to a cell before feeding it to
`dateutil.parser.parse`; an abstract but injective-per-constructor
rendering is enough because the parser itself is a parameter. -/
def pyStr : Value → String
  | .num n => toString n
  | .str s => s
  | .dt t => "ts " ++ toString t
  | .missing => "NaT"

/-- Largest epoch-nanosecond count representable by a pandas `Timestamp`
(the `int64` maximum); conversions beyond it raise `OutOfBoundsDatetime`. -/
def nsMax : Int := 9223372036854775807

/-- Nanoseconds per second: the scale factor of `pd.to_datetime(..., unit=s)`. -/
def nsPerSec : Int := 1000000000

/-- Nanoseconds per millisecond: the scale factor of `pd.to_datetime(..., unit=ms)`. -/
def nsPerMs : Int := 1000000

/-- Whether one cell survives `pd.to_datetime(..., unit=...)` with scale
factor `f`: missing cells become NaT, numeric cells must land inside the
`Timestamp` range, anything else raises. -/
def unitOk (f : Int) : Value → Bool
  | .num k => decide (-nsMax ≤ k * f) && decide (k * f ≤ nsMax)
  | .missing => true
  | _ => false

/-- The converted cell under `pd.to_datetime(..., unit=...)` with scale factor `f`. -/
def unitConv (f : Int) : Value → Value
  | .num k => .dt (k * f)
  | _ => .missing

/-- `pd.to_datetime(series, unit=...)` with `errors=raise` (the default,
as used in `auto_convert_datetime`): succeeds, converting every cell, iff
every cell is a missing value or an in-range numeric. -/
def toDatetimeUnit (f : Int) (vs : List Value) : Option (List Value) :=
  if vs.all (unitOk f) then some (vs.map (unitConv f)) else none

/-- One cell under `pd.to_datetime(series, errors=coerce)` without a
unit: strings go through the host parser, coercing failures to missing;
numerics are taken as epoch nanoseconds, out-of-range ones coerced to
missing; date/times pass through; missing stays missing. -/
def coerceVal (env : Env) : Value → Value
  | .str s =>
    match env.pdParseStr s with
    | some t => .dt t
    | none => .missing
  | .num n => if -nsMax ≤ n ∧ n ≤ nsMax then .dt n else .missing
  | .dt t => .dt t
  | .missing => .missing

/-- The numeric maximum of a column (`df[col].max()` skips missing values
and returns NaN — here `none` — when no numeric value is present). -/
def maxNum : List Value → Option Int
  | [] => none
  | .num k :: vs =>
    match maxNum vs with
    | none => some k
    | some m => some (max k m)
  | _ :: vs => maxNum vs

/-- The guard `pd.api.types.is_numeric_dtype(df[col]) and df[col].max() > 1e9`
of `auto_convert_datetime` (an all-missing numeric column has NaN maximum,
and `NaN > 1e9` is false). -/
def isBigNumeric (c : Col) : Bool :=
  c.dtype == Dtype.numeric &&
    match maxNum c.vals with
    | some m => decide (1000000000 < m)
    | none => false

/-- `df[col].dropna()`: the non-missing cells of a column. -/
def nonNullVals (c : Col) : List Value := c.vals.filter (fun v => v != Value.missing)

/-- How many sampled values `dateutil.parser.parse(str(val))` accepts
(the `date_count` loop of `auto_convert_datetime`). -/
def parseCount (env : Env) (sample : List Value) : Nat :=
  (sample.filter (fun v => env.duParse (pyStr v))).length

/-- The running state of `auto_convert_datetime`: the DataFrame, the
`date_cols` list, and the `converted_cols` association (as an ordered list
of pairs). -/
abbrev Acc := DF × List String × List (String × String)

/-- The sampling phase of `auto_convert_datetime` for one column: draw a
sample of the non-missing values, count how many parse as dates, and
convert the whole column in place (coercing failures to missing) when the
parsed fraction strictly exceeds 0.7.  The fraction test
`date_count / len(sample) > 0.7` is rendered exactly as
`7 * len(sample) < 10 * date_count`: for sample sizes up to 10 the
floating-point comparison of the source agrees with the rational one,
since no fraction `k/n` with `n ≤ 10` other than `7/10` rounds to the
double of `0.7`.  An empty sample makes the source raise
`ZeroDivisionError` (`date_count / len(sample)` with `len(sample) = 0`),
which no `except` catches: that is the `.error ()` outcome. -/
def sampleStep (env : Env) : Acc → Col → Except Unit Acc
  | (df, dc, cv), c =>
    let sample := env.sampleSel (nonNullVals c)
    if sample.length = 0 then .error ()
    else if 7 * sample.length < 10 * parseCount env sample then
      .ok (setCol df c.name .datetime (c.vals.map (coerceVal env)), dc ++ [c.name], cv)
    else .ok (df, dc, cv)

/-- The body of the `for col in df.columns` loop of `auto_convert_datetime`:
a numeric column with maximum above 1e9 is first tried as a seconds
timestamp, then as a milliseconds timestamp — success materialises a new
`<col>_datetime` column, records the association and `continue`s — and on
failure (or for non-numeric columns) control falls through to the sampling
phase. -/
def detStep (env : Env) : Acc → String → Except Unit Acc
  | (df, dc, cv), name =>
    match lookup df name with
    | none => .ok (df, dc, cv)
    | some c =>
      if isBigNumeric c then
        match toDatetimeUnit nsPerSec c.vals with
        | some w =>
          .ok (setCol df (name ++ "_datetime") .datetime w,
               dc ++ [name ++ "_datetime"], cv ++ [(name, name ++ "_datetime")])
        | none =>
          match toDatetimeUnit nsPerMs c.vals with
          | some w =>
            .ok (setCol df (name ++ "_datetime") .datetime w,
                 dc ++ [name ++ "_datetime"], cv ++ [(name, name ++ "_datetime")])
          | none => sampleStep env (df, dc, cv) c
      else sampleStep env (df, dc, cv) c

/-- The `for col in df.columns` loop: `df.columns` is read once, so the
iterated names are those of the frame at entry, while each body reads the
current state of the frame. -/
def runCols (env : Env) : List String → Acc → Except Unit Acc
  | [], acc => .ok acc
  | n :: ns, acc =>
    match detStep env acc n with
    | .ok acc2 => runCols env ns acc2
    | .error e => .error e

/-- `auto_convert_datetime(df)`: returns the mutated frame, the list of
recognised date columns, and the source-to-derived column associations —
or the uncaught exception of an empty-sample division. -/
def auto_convert_datetime (env : Env) (df : DF) : Except Unit Acc :=
  runCols env df.names (df, [], [])

/-- The format choices of the manual date-conversion tool, in the order of
its dropdown: automatic detection, seconds timestamp, milliseconds
timestamp, ISO, US, European, and a custom format string. -/
inductive DateFmtChoice where
  | autoDetect
  | unixSec
  | unixMs
  | isoFmt
  | usFmt
  | euFmt
  | customFmt
deriving DecidableEq, Repr

/-- One cell under `pd.to_datetime(series, unit=..., errors=coerce)` in
the manual tool: numeric cells in range convert, everything unparseable is
coerced to missing. -/
def coerceUnitVal (f : Int) : Value → Value
  | .num k => if -nsMax ≤ k * f ∧ k * f ≤ nsMax then .dt (k * f) else .missing
  | .dt t => .dt t
  | _ => .missing

/-- One cell under `pd.to_datetime(series, format=..., errors=coerce)`:
the cell string rendering is parsed against the format, failures are
coerced to missing, date/times pass through. -/
def coerceFmtVal (env : Env) (fmt : String) : Value → Value
  | .str s =>
    match env.strpParse fmt s with
    | some t => .dt t
    | none => .missing
  | .num n =>
    match env.strpParse fmt (pyStr (.num n)) with
    | some t => .dt t
    | none => .missing
  | .dt t => .dt t
  | .missing => .missing

/-- `pd.to_datetime(series, format=..., errors=coerce)`: an ill-formed
format string (a bad directive) still raises, otherwise every cell is
converted with failures coerced to missing. -/
def fmtConvert (env : Env) (fmt : String) (c : Col) : Except String (List Value) :=
  if env.strpValid fmt then .ok (c.vals.map (coerceFmtVal env fmt))
  else .error ("bad directive in format " ++ fmt)

/-- The body of the `try:` block of the manual conversion button: select
the column (a missing column raises a `KeyError`) and convert it according
to the chosen format, every branch of the source using `errors=coerce`. -/
def tryManualConvert (env : Env) (df : DF) (dateCol : String)
    (choice : DateFmtChoice) (custom : String) : Except String (List Value) :=
  match lookup df dateCol with
  | none => .error "KeyError"
  | some c =>
    match choice with
    | .unixSec => .ok (c.vals.map (coerceUnitVal nsPerSec))
    | .unixMs => .ok (c.vals.map (coerceUnitVal nsPerMs))
    | .isoFmt => fmtConvert env "%Y-%m-%d" c
    | .usFmt => fmtConvert env "%m/%d/%Y" c
    | .euFmt => fmtConvert env "%d/%m/%Y" c
    | .customFmt => fmtConvert env custom c
    | .autoDetect => .ok (c.vals.map (coerceVal env))

/-- What the manual conversion button reports to the user. -/
inductive UiMsg where
  | success : String → UiMsg
  | failure : String → UiMsg
deriving DecidableEq, Repr

/-- The manual date-conversion button handler: on success the converted
values are stored under the user-chosen new column name, that name is
appended to the recognised date columns when not already present, and a
success message is shown; an exception is caught and reported with its
text, leaving the frame and the date-column list untouched. -/
def convertButtonHandler (env : Env) (df : DF) (dateCols : List String)
    (dateCol newCol : String) (choice : DateFmtChoice) (custom : String) :
    DF × List String × UiMsg :=
  match tryManualConvert env df dateCol choice custom with
  | .ok vs =>
    (setCol df newCol .datetime vs,
     if newCol ∈ dateCols then dateCols else dateCols ++ [newCol],
     .success ("created new date column: " ++ newCol))
  | .error e => (df, dateCols, .failure ("date conversion failed: " ++ e))

/-! ### Derived predicates used by the idempotence analysis -/

/-- One of the two timestamp interpretations of a column values succeeds. -/
def convOk (c : Col) : Prop :=
  (∃ w, toDatetimeUnit nsPerSec c.vals = some w) ∨
    (∃ w, toDatetimeUnit nsPerMs c.vals = some w)

/-- Every big numeric column whose timestamp interpretation succeeds
already has its derived `_datetime` column in the frame.  This holds of
every frame the detector returns, and forces a second pass to overwrite
rather than extend. -/
def BigConvInv (df : DF) : Prop :=
  ∀ c ∈ df.cols, isBigNumeric c = true → convOk c → (c.name ++ "_datetime") ∈ df.names

/-! ### Concrete instances used by the closed-form evaluations

The external collaborators are instantiated with simple computable
stand-ins: the stand-in for the permissive date parser accepts exactly the
strings that start with the two characters of a 21st-century year, and the
sampler takes the first ten elements, which satisfies the size law of
`Series.sample`. -/

/-- Whether a string starts with the two characters 2 and 0 (the toy
stand-in for a date parser in the concrete instances). -/
def leads20 (s : String) : Bool := decide (s.data.take 2 = ['2', '0'])

/-- A concrete, fully computable environment. -/
def env0 : Env where
  sampleSel := fun l => l.take 10
  duParse := leads20
  pdParseStr := fun s => if leads20 s then some 1000 else none
  strpParse := fun fmt s => if fmt = "%Y-%m-%d" ∧ leads20 s then some 500 else none
  strpValid := fun fmt => decide (fmt.data.take 1 = ['%'])

/-- A table whose single column is entirely missing. -/
def dfC1 : DF := ⟨[⟨"mood", Dtype.text, [Value.missing, Value.missing, Value.missing]⟩]⟩

/-- A table with a parseable text column followed by an all-missing numeric column. -/
def dfC2x : DF :=
  ⟨[⟨"a", Dtype.text, [Value.str "2020-01-01"]⟩, ⟨"b", Dtype.numeric, [Value.missing]⟩]⟩

/-- A table in which every column has a non-missing value (and parse
failures occur: the text is not date-like). -/
def dfC2w : DF :=
  ⟨[⟨"a", Dtype.text, [Value.str "hello", Value.missing]⟩, ⟨"t", Dtype.numeric, [Value.num 5]⟩]⟩

/-- The seconds-timestamp column of the end-to-end scenario plus a
convertible text column. -/
def dfC7 : DF :=
  ⟨[⟨"ts", Dtype.numeric, [Value.num 1700000000, Value.num 1700086400, Value.num 1700172800]⟩,
    ⟨"d", Dtype.text, [Value.str "2021-01-01", Value.str "2022-02-02"]⟩]⟩

/-- The three parsed date/times of the end-to-end seconds scenario, one
day (86400 seconds) apart. -/
def tsDtVals : List Value :=
  [Value.dt 1700000000000000000, Value.dt 1700086400000000000, Value.dt 1700172800000000000]

/-- The frame produced by the first detection pass over `dfC7`. -/
def df1c : DF :=
  ⟨[⟨"ts", Dtype.numeric, [Value.num 1700000000, Value.num 1700086400, Value.num 1700172800]⟩,
    ⟨"d", Dtype.datetime, [Value.dt 1000, Value.dt 1000]⟩,
    ⟨"ts_datetime", Dtype.datetime, tsDtVals⟩]⟩

/-- A text column in which exactly 7 of its 10 values parse. -/
def colW3 : Col :=
  ⟨"d", Dtype.text,
   [Value.str "2001", Value.str "2002", Value.str "2003", Value.str "2004", Value.str "2005",
    Value.str "2006", Value.str "2007", Value.str "x1", Value.str "x2", Value.str "x3"]⟩

/-- A text column in which exactly 8 of its 10 values parse. -/
def colW6 : Col :=
  ⟨"d", Dtype.text,
   [Value.str "2001", Value.str "2002", Value.str "2003", Value.str "2004", Value.str "2005",
    Value.str "2006", Value.str "2007", Value.str "2008", Value.str "x2", Value.str "x3"]⟩

/-- A numeric column holding a milliseconds-scale timestamp: too large for
the seconds interpretation, valid under milliseconds. -/
def dfW4 : DF := ⟨[⟨"t", Dtype.numeric, [Value.num 1700000000000]⟩]⟩

/-- The column of `dfW4`. -/
def colW4 : Col := ⟨"t", Dtype.numeric, [Value.num 1700000000000]⟩

/-- The seconds-timestamp end-to-end table of the specification. -/
def dfW5 : DF :=
  ⟨[⟨"ts", Dtype.numeric, [Value.num 1700000000, Value.num 1700086400, Value.num 1700172800]⟩]⟩

/-- The column of `dfW5`. -/
def colW5 : Col :=
  ⟨"ts", Dtype.numeric, [Value.num 1700000000, Value.num 1700086400, Value.num 1700172800]⟩

/-- A one-column table whose text does not match any date format. -/
def dfC9 : DF := ⟨[⟨"d", Dtype.text, [Value.str "hello"]⟩]⟩

/-! ### Basic lemmas about column selection and column assignment -/

theorem findCol_mem {cs : List Col} {n : String} {c : Col}
    (h : findCol cs n = some c) : c ∈ cs := by
  induction cs with
  | nil => simp [findCol] at h
  | cons a as ih =>
    simp only [findCol] at h
    by_cases ha : a.name = n
    · rw [if_pos ha] at h
      injection h with h
      subst h
      exact List.mem_cons_self _ _
    · rw [if_neg ha] at h
      exact List.mem_cons_of_mem a (ih h)

theorem findCol_name {cs : List Col} {n : String} {c : Col}
    (h : findCol cs n = some c) : c.name = n := by
  induction cs with
  | nil => simp [findCol] at h
  | cons a as ih =>
    simp only [findCol] at h
    by_cases ha : a.name = n
    · rw [if_pos ha] at h
      cases h
      exact ha
    · rw [if_neg ha] at h
      exact ih h

theorem findCol_of_nodup {cs : List Col} {c : Col}
    (hnd : (cs.map Col.name).Nodup) (hc : c ∈ cs) : findCol cs c.name = some c := by
  induction cs with
  | nil => simp at hc
  | cons a as ih =>
    simp only [List.map_cons, List.nodup_cons] at hnd
    rcases List.mem_cons.mp hc with h | h
    · subst h
      simp [findCol]
    · simp only [findCol]
      by_cases ha : a.name = c.name
      · exfalso
        exact hnd.1 (ha ▸ List.mem_map_of_mem Col.name h)
      · rw [if_neg ha]
        exact ih hnd.2 h

theorem setCols_names_mem {cs : List Col} {n : String} (d : Dtype) (vs : List Value)
    (h : n ∈ cs.map Col.name) : (setCols cs n d vs).map Col.name = cs.map Col.name := by
  induction cs with
  | nil => simp at h
  | cons a as ih =>
    simp only [setCols]
    by_cases ha : a.name = n
    · rw [if_pos ha]
      simp [ha]
    · rw [if_neg ha]
      simp only [List.map_cons] at h ⊢
      rcases List.mem_cons.mp h with h1 | h1
      · exact absurd h1.symm ha
      · rw [ih h1]

theorem setCols_names_not_mem {cs : List Col} {n : String} (d : Dtype) (vs : List Value)
    (h : n ∉ cs.map Col.name) :
    (setCols cs n d vs).map Col.name = cs.map Col.name ++ [n] := by
  induction cs with
  | nil => simp [setCols]
  | cons a as ih =>
    simp only [List.map_cons, List.mem_cons] at h
    push_neg at h
    simp only [setCols]
    rw [if_neg (fun hh => h.1 hh.symm)]
    simp only [List.map_cons, List.cons_append, List.cons.injEq, true_and]
    exact ih h.2

theorem setCols_names_cases (cs : List Col) (n : String) (d : Dtype) (vs : List Value) :
    (setCols cs n d vs).map Col.name = cs.map Col.name ∨
    (setCols cs n d vs).map Col.name = cs.map Col.name ++ [n] := by
  by_cases h : n ∈ cs.map Col.name
  · exact Or.inl (setCols_names_mem d vs h)
  · exact Or.inr (setCols_names_not_mem d vs h)

theorem names_subset_setCols (cs : List Col) (n : String) (d : Dtype) (vs : List Value) :
    cs.map Col.name ⊆ (setCols cs n d vs).map Col.name := by
  rcases setCols_names_cases cs n d vs with h | h
  · rw [h]
    exact fun x hx => hx
  · rw [h]
    exact List.subset_append_left _ _

theorem self_mem_setCols_names (cs : List Col) (n : String) (d : Dtype) (vs : List Value) :
    n ∈ (setCols cs n d vs).map Col.name := by
  by_cases h : n ∈ cs.map Col.name
  · rw [setCols_names_mem d vs h]
    exact h
  · rw [setCols_names_not_mem d vs h]
    simp

theorem findCol_setCols_self (cs : List Col) (n : String) (d : Dtype) (vs : List Value) :
    findCol (setCols cs n d vs) n = some ⟨n, d, vs⟩ := by
  induction cs with
  | nil => simp [setCols, findCol]
  | cons a as ih =>
    simp only [setCols]
    by_cases ha : a.name = n
    · rw [if_pos ha]
      simp [findCol]
    · rw [if_neg ha]
      simp only [findCol, if_neg ha]
      exact ih

theorem findCol_setCols_ne (cs : List Col) {m n : String} (d : Dtype) (vs : List Value)
    (h : m ≠ n) : findCol (setCols cs n d vs) m = findCol cs m := by
  have hnm : ¬ n = m := fun hh => h hh.symm
  induction cs with
  | nil =>
    simp only [setCols, findCol]
    rw [if_neg hnm]
  | cons a as ih =>
    simp only [setCols]
    by_cases ha : a.name = n
    · rw [if_pos ha]
      simp only [findCol]
      rw [if_neg hnm, if_neg (show ¬ a.name = m by rw [ha]; exact hnm)]
    · rw [if_neg ha]
      simp only [findCol]
      by_cases ham : a.name = m
      · rw [if_pos ham, if_pos ham]
      · rw [if_neg ham, if_neg ham]
        exact ih

theorem mem_setCols {cs : List Col} {n : String} {d : Dtype} {vs : List Value} {a : Col}
    (h : a ∈ setCols cs n d vs) : a = ⟨n, d, vs⟩ ∨ a ∈ cs := by
  induction cs with
  | nil =>
    simp [setCols] at h
    exact Or.inl h
  | cons b bs ih =>
    simp only [setCols] at h
    by_cases hb : b.name = n
    · rw [if_pos hb] at h
      rcases List.mem_cons.mp h with h1 | h1
      · exact Or.inl h1
      · exact Or.inr (List.mem_cons_of_mem b h1)
    · rw [if_neg hb] at h
      rcases List.mem_cons.mp h with h1 | h1
      · exact Or.inr (h1 ▸ List.mem_cons_self b bs)
      · rcases ih h1 with h2 | h2
        · exact Or.inl h2
        · exact Or.inr (List.mem_cons_of_mem b h2)

theorem setCols_nodup {cs : List Col} {n : String} (d : Dtype) (vs : List Value)
    (h : (cs.map Col.name).Nodup) : ((setCols cs n d vs).map Col.name).Nodup := by
  by_cases hn : n ∈ cs.map Col.name
  · rw [setCols_names_mem d vs hn]
    exact h
  · rw [setCols_names_not_mem d vs hn]
    rw [List.nodup_append]
    refine ⟨h, List.nodup_singleton n, ?_⟩
    intro a ha hha
    rw [List.mem_singleton] at hha
    subst hha
    exact hn ha

/-! ### Lemmas about the conversion primitives -/

theorem toDatetimeUnit_length {f : Int} {vs ws : List Value}
    (h : toDatetimeUnit f vs = some ws) : ws.length = vs.length := by
  unfold toDatetimeUnit at h
  by_cases ha : vs.all (unitOk f)
  · rw [if_pos ha] at h
    injection h with h
    subst h
    exact List.length_map _ _
  · rw [if_neg ha] at h
    cases h

theorem toDatetimeUnit_mem_dt {f : Int} {vs ws : List Value} {k : Int}
    (h : toDatetimeUnit f vs = some ws) (hk : Value.num k ∈ vs) :
    Value.dt (k * f) ∈ ws := by
  unfold toDatetimeUnit at h
  by_cases ha : vs.all (unitOk f)
  · rw [if_pos ha] at h
    injection h with h
    subst h
    exact List.mem_map.mpr ⟨Value.num k, hk, rfl⟩
  · rw [if_neg ha] at h
    cases h

theorem maxNum_exists_num {vs : List Value} {m : Int}
    (h : maxNum vs = some m) : ∃ k : Int, Value.num k ∈ vs := by
  induction vs with
  | nil => simp [maxNum] at h
  | cons v vs ih =>
    cases v with
    | num k => exact ⟨k, List.mem_cons_self _ _⟩
    | str s =>
      simp only [maxNum] at h
      obtain ⟨k, hk⟩ := ih h
      exact ⟨k, List.mem_cons_of_mem _ hk⟩
    | dt t =>
      simp only [maxNum] at h
      obtain ⟨k, hk⟩ := ih h
      exact ⟨k, List.mem_cons_of_mem _ hk⟩
    | missing =>
      simp only [maxNum] at h
      obtain ⟨k, hk⟩ := ih h
      exact ⟨k, List.mem_cons_of_mem _ hk⟩

theorem isBigNumeric_exists_num {c : Col} (h : isBigNumeric c = true) :
    ∃ k : Int, Value.num k ∈ c.vals := by
  unfold isBigNumeric at h
  rw [Bool.and_eq_true] at h
  cases hm : maxNum c.vals with
  | none => rw [hm] at h; cases h.2
  | some m => exact maxNum_exists_num hm

theorem nonNullVals_ne_nil {c : Col} {v : Value}
    (hv : v ∈ c.vals) (hne : v ≠ Value.missing) : nonNullVals c ≠ [] := by
  intro hnil
  have : v ∈ nonNullVals c := by
    unfold nonNullVals
    rw [List.mem_filter]
    exact ⟨hv, by simpa using hne⟩
  rw [hnil] at this
  simp at this

/-! ### Generic induction principles over the column loop -/

theorem runCols_preserve (env : Env) (P : Acc → Prop)
    (hstep : ∀ acc n acc2, P acc → detStep env acc n = .ok acc2 → P acc2) :
    ∀ ns acc acc2, P acc → runCols env ns acc = .ok acc2 → P acc2 := by
  intro ns
  induction ns with
  | nil =>
    intro acc acc2 hp h
    simp only [runCols] at h
    injection h with h
    subst h
    exact hp
  | cons n ns ih =>
    intro acc acc2 hp h
    simp only [runCols] at h
    cases hd : detStep env acc n with
    | ok accm =>
      rw [hd] at h
      exact ih accm acc2 (hstep acc n accm hp hd) h
    | error e =>
      rw [hd] at h
      cases h

theorem runCols_preserve_rem (env : Env) (P : Acc → List String → Prop)
    (hstep : ∀ acc n ns acc2, P acc (n :: ns) → detStep env acc n = .ok acc2 → P acc2 ns) :
    ∀ ns acc acc2, P acc ns → runCols env ns acc = .ok acc2 → P acc2 [] := by
  intro ns
  induction ns with
  | nil =>
    intro acc acc2 hp h
    simp only [runCols] at h
    injection h with h
    subst h
    exact hp
  | cons n ns ih =>
    intro acc acc2 hp h
    simp only [runCols] at h
    cases hd : detStep env acc n with
    | ok accm =>
      rw [hd] at h
      exact ih accm acc2 (hstep acc n ns accm hp hd) h
    | error e =>
      rw [hd] at h
      cases h

theorem runCols_total (env : Env) (Q : Acc → List String → Prop)
    (hstep : ∀ acc n ns, Q acc (n :: ns) → ∃ acc2, detStep env acc n = .ok acc2 ∧ Q acc2 ns) :
    ∀ ns acc, Q acc ns → ∃ acc2, runCols env ns acc = .ok acc2 := by
  intro ns
  induction ns with
  | nil =>
    intro acc _
    exact ⟨acc, rfl⟩
  | cons n ns ih =>
    intro acc hq
    obtain ⟨accm, hd, hqm⟩ := hstep acc n ns hq
    obtain ⟨acc2, h2⟩ := ih accm hqm
    refine ⟨acc2, ?_⟩
    simp only [runCols]
    rw [hd]
    exact h2

/-! ### Shape analysis of one loop iteration -/

/-- Every successful iteration of the column loop either leaves the state
unchanged, materialises a `<name>_datetime` column from a big numeric
column via the seconds or milliseconds timestamp path, or converts the
looked-up column in place via the sampling path. -/
theorem detStep_cases (env : Env) (acc : Acc) (name : String) (acc2 : Acc)
    (h : detStep env acc name = .ok acc2) :
    acc2 = acc ∨
    (∃ c w, lookup acc.1 name = some c ∧ isBigNumeric c = true ∧
      (toDatetimeUnit nsPerSec c.vals = some w ∨
        (toDatetimeUnit nsPerSec c.vals = none ∧ toDatetimeUnit nsPerMs c.vals = some w)) ∧
      acc2 = (setCol acc.1 (name ++ "_datetime") .datetime w,
        acc.2.1 ++ [name ++ "_datetime"], acc.2.2 ++ [(name, name ++ "_datetime")])) ∨
    (∃ c, lookup acc.1 name = some c ∧ c.name = name ∧
      acc2 = (setCol acc.1 c.name .datetime (c.vals.map (coerceVal env)),
        acc.2.1 ++ [c.name], acc.2.2)) := by
  obtain ⟨df, dc, cv⟩ := acc
  simp only [detStep] at h
  cases hl : lookup df name with
  | none =>
    rw [hl] at h
    injection h with h
    exact Or.inl h.symm
  | some c =>
    rw [hl] at h
    dsimp only at h
    have hcn : c.name = name := findCol_name hl
    by_cases hb : isBigNumeric c
    · rw [if_pos hb] at h
      cases hs : toDatetimeUnit nsPerSec c.vals with
      | some w =>
        rw [hs] at h
        injection h with h
        exact Or.inr (Or.inl ⟨c, w, rfl, hb, Or.inl hs, h.symm⟩)
      | none =>
        rw [hs] at h
        cases hm : toDatetimeUnit nsPerMs c.vals with
        | some w =>
          rw [hm] at h
          injection h with h
          exact Or.inr (Or.inl ⟨c, w, rfl, hb, Or.inr ⟨hs, hm⟩, h.symm⟩)
        | none =>
          rw [hm] at h
          simp only [sampleStep] at h
          by_cases h0 : (env.sampleSel (nonNullVals c)).length = 0
          · rw [if_pos h0] at h
            cases h
          · rw [if_neg h0] at h
            by_cases h7 : 7 * (env.sampleSel (nonNullVals c)).length <
                10 * parseCount env (env.sampleSel (nonNullVals c))
            · rw [if_pos h7] at h
              injection h with h
              exact Or.inr (Or.inr ⟨c, rfl, hcn, h.symm⟩)
            · rw [if_neg h7] at h
              injection h with h
              exact Or.inl h.symm
    · rw [if_neg hb] at h
      simp only [sampleStep] at h
      by_cases h0 : (env.sampleSel (nonNullVals c)).length = 0
      · rw [if_pos h0] at h
        cases h
      · rw [if_neg h0] at h
        by_cases h7 : 7 * (env.sampleSel (nonNullVals c)).length <
            10 * parseCount env (env.sampleSel (nonNullVals c))
        · rw [if_pos h7] at h
          injection h with h
          exact Or.inr (Or.inr ⟨c, rfl, hcn, h.symm⟩)
        · rw [if_neg h7] at h
          injection h with h
          exact Or.inl h.symm

/-! ### DataFrame-level wrappers -/

theorem setCol_names_cases (df : DF) (n : String) (d : Dtype) (vs : List Value) :
    (setCol df n d vs).names = df.names ∨ (setCol df n d vs).names = df.names ++ [n] :=
  setCols_names_cases df.cols n d vs

theorem setCol_names_mem {df : DF} {n : String} (d : Dtype) (vs : List Value)
    (h : n ∈ df.names) : (setCol df n d vs).names = df.names :=
  setCols_names_mem d vs h

theorem setCol_names_not_mem {df : DF} {n : String} (d : Dtype) (vs : List Value)
    (h : n ∉ df.names) : (setCol df n d vs).names = df.names ++ [n] :=
  setCols_names_not_mem d vs h

theorem lookup_setCol_self (df : DF) (n : String) (d : Dtype) (vs : List Value) :
    lookup (setCol df n d vs) n = some ⟨n, d, vs⟩ :=
  findCol_setCols_self df.cols n d vs

theorem lookup_setCol_ne (df : DF) {m n : String} (d : Dtype) (vs : List Value)
    (h : m ≠ n) : lookup (setCol df n d vs) m = lookup df m :=
  findCol_setCols_ne df.cols d vs h

theorem mem_setCol {df : DF} {n : String} {d : Dtype} {vs : List Value} {a : Col}
    (h : a ∈ (setCol df n d vs).cols) : a = ⟨n, d, vs⟩ ∨ a ∈ df.cols :=
  mem_setCols h

theorem setCol_nodup {df : DF} {n : String} (d : Dtype) (vs : List Value)
    (h : df.names.Nodup) : (setCol df n d vs).names.Nodup :=
  setCols_nodup d vs h

theorem self_mem_setCol_names (df : DF) (n : String) (d : Dtype) (vs : List Value) :
    n ∈ (setCol df n d vs).names :=
  self_mem_setCols_names df.cols n d vs

theorem names_subset_setCol (df : DF) (n : String) (d : Dtype) (vs : List Value) :
    df.names ⊆ (setCol df n d vs).names :=
  names_subset_setCols df.cols n d vs

theorem lookup_mem {df : DF} {n : String} {c : Col} (h : lookup df n = some c) :
    c ∈ df.cols :=
  findCol_mem h

theorem lookup_name {df : DF} {n : String} {c : Col} (h : lookup df n = some c) :
    c.name = n :=
  findCol_name h

theorem lookup_of_nodup {df : DF} {c : Col} (hnd : df.names.Nodup) (hc : c ∈ df.cols) :
    lookup df c.name = some c :=
  findCol_of_nodup hnd hc

theorem mem_names_of_mem_cols {df : DF} {c : Col} (hc : c ∈ df.cols) :
    c.name ∈ df.names :=
  List.mem_map_of_mem Col.name hc

theorem name_ne_datetime_suffix (s : String) : s ≠ s ++ "_datetime" := by
  intro h
  have hl : s.length = (s ++ "_datetime").length := congrArg String.length h
  rw [String.length_append] at hl
  have h9 : "_datetime".length = 9 := rfl
  omega

/-! ### Step-level corollaries -/

theorem detStep_names (env : Env) (acc : Acc) (name : String) (acc2 : Acc)
    (h : detStep env acc name = .ok acc2) :
    acc2.1.names = acc.1.names ∨ ∃ m, acc2.1.names = acc.1.names ++ [m] := by
  rcases detStep_cases env acc name acc2 h with hc | ⟨c, w, hl, _, _, hc⟩ | ⟨c, hl, _, hc⟩
  · rw [hc]
    exact Or.inl rfl
  · rw [hc]
    rcases setCol_names_cases acc.1 (name ++ "_datetime") .datetime w with hn | hn
    · exact Or.inl hn
    · exact Or.inr ⟨name ++ "_datetime", hn⟩
  · rw [hc]
    exact Or.inl (setCol_names_mem _ _ (mem_names_of_mem_cols (lookup_mem hl)))

theorem detStep_names_subset (env : Env) (acc : Acc) (name : String) (acc2 : Acc)
    (h : detStep env acc name = .ok acc2) : acc.1.names ⊆ acc2.1.names := by
  rcases detStep_names env acc name acc2 h with hn | ⟨m, hn⟩
  · rw [hn]
    exact fun x hx => hx
  · rw [hn]
    exact List.subset_append_left _ _

theorem detStep_nodup (env : Env) (acc : Acc) (name : String) (acc2 : Acc)
    (h : detStep env acc name = .ok acc2) (hnd : acc.1.names.Nodup) :
    acc2.1.names.Nodup := by
  rcases detStep_cases env acc name acc2 h with hc | ⟨c, w, _, _, _, hc⟩ | ⟨c, _, _, hc⟩
  · rw [hc]
    exact hnd
  · rw [hc]
    exact setCol_nodup _ _ hnd
  · rw [hc]
    exact setCol_nodup _ _ hnd

theorem detStep_datetime_stable (env : Env) (acc : Acc) (name : String) (acc2 : Acc)
    (h : detStep env acc name = .ok acc2) (m : String) (c : Col)
    (hm : lookup acc.1 m = some c) (hd : c.dtype = .datetime) :
    ∃ c2, lookup acc2.1 m = some c2 ∧ c2.dtype = .datetime := by
  rcases detStep_cases env acc name acc2 h with hc | ⟨c0, w, _, _, _, hc⟩ | ⟨c0, _, _, hc⟩
  · rw [hc]
    exact ⟨c, hm, hd⟩
  · rw [hc]
    by_cases he : m = name ++ "_datetime"
    · subst he
      exact ⟨⟨name ++ "_datetime", .datetime, w⟩, lookup_setCol_self _ _ _ _, rfl⟩
    · rw [lookup_setCol_ne _ _ _ he]
      exact ⟨c, hm, hd⟩
  · rw [hc]
    by_cases he : m = c0.name
    · subst he
      exact ⟨⟨c0.name, .datetime, c0.vals.map (coerceVal env)⟩, lookup_setCol_self _ _ _ _, rfl⟩
    · rw [lookup_setCol_ne _ _ _ he]
      exact ⟨c, hm, hd⟩

theorem detStep_lengths (env : Env) (acc : Acc) (name : String) (acc2 : Acc) (N : Nat)
    (h : detStep env acc name = .ok acc2) (hlen : ∀ c ∈ acc.1.cols, c.vals.length = N) :
    ∀ c ∈ acc2.1.cols, c.vals.length = N := by
  rcases detStep_cases env acc name acc2 h with hc | ⟨c0, w, hl, _, hcv, hc⟩ | ⟨c0, hl, _, hc⟩
  · rw [hc]
    exact hlen
  · rw [hc]
    intro a ha
    rcases mem_setCol ha with ha2 | ha2
    · subst ha2
      have hw : w.length = c0.vals.length := by
        rcases hcv with hs | ⟨_, hs⟩
        · exact toDatetimeUnit_length hs
        · exact toDatetimeUnit_length hs
      simpa [hw] using hlen c0 (lookup_mem hl)
    · exact hlen a ha2
  · rw [hc]
    intro a ha
    rcases mem_setCol ha with ha2 | ha2
    · subst ha2
      simpa using hlen c0 (lookup_mem hl)
    · exact hlen a ha2

/-- When the looked-up column is a big numeric one and one of the two
timestamp interpretations succeeds, the loop body necessarily takes the
timestamp path and materialises the derived column. -/
theorem detStep_big_conv (env : Env) (acc : Acc) (name : String) (c : Col)
    (hl : lookup acc.1 name = some c) (hb : isBigNumeric c = true)
    (hcv : (∃ w, toDatetimeUnit nsPerSec c.vals = some w) ∨
      (∃ w, toDatetimeUnit nsPerMs c.vals = some w)) :
    ∃ w, detStep env acc name =
      .ok (setCol acc.1 (name ++ "_datetime") .datetime w,
        acc.2.1 ++ [name ++ "_datetime"], acc.2.2 ++ [(name, name ++ "_datetime")]) := by
  obtain ⟨df, dc, cv⟩ := acc
  simp only [detStep]
  rw [hl]
  dsimp only
  rw [if_pos hb]
  cases hs : toDatetimeUnit nsPerSec c.vals with
  | some w => exact ⟨w, rfl⟩
  | none =>
    rcases hcv with ⟨w, hw⟩ | ⟨w, hw⟩
    · rw [hs] at hw
      cases hw
    · rw [hw]
      exact ⟨w, rfl⟩

/-! ### Whole-pass invariants -/

theorem run_names_extend (env : Env) (df df2 : DF) (dc2 : List String)
    (cv2 : List (String × String))
    (h : auto_convert_datetime env df = .ok (df2, dc2, cv2)) :
    ∃ ext, df2.names = df.names ++ ext := by
  have hp := runCols_preserve env (fun acc => ∃ ext, acc.1.names = df.names ++ ext)
    (by
      intro acc n acc2 hP hd
      obtain ⟨ext, he⟩ := hP
      rcases detStep_names env acc n acc2 hd with hn | ⟨m, hn⟩
      · exact ⟨ext, by rw [hn, he]⟩
      · exact ⟨ext ++ [m], by rw [hn, he, List.append_assoc]⟩)
    df.names (df, [], []) (df2, dc2, cv2) ⟨[], by simp⟩ h
  exact hp

theorem run_lengths (env : Env) (df df2 : DF) (dc2 : List String)
    (cv2 : List (String × String)) (N : Nat)
    (h : auto_convert_datetime env df = .ok (df2, dc2, cv2))
    (hlen : ∀ c ∈ df.cols, c.vals.length = N) :
    ∀ c ∈ df2.cols, c.vals.length = N := by
  have hp := runCols_preserve env (fun acc => ∀ c ∈ acc.1.cols, c.vals.length = N)
    (by
      intro acc n acc2 hP hd
      exact detStep_lengths env acc n acc2 N hd hP)
    df.names (df, [], []) (df2, dc2, cv2) hlen h
  exact hp

theorem run_nodup (env : Env) (df df2 : DF) (dc2 : List String)
    (cv2 : List (String × String))
    (h : auto_convert_datetime env df = .ok (df2, dc2, cv2))
    (hnd : df.names.Nodup) : df2.names.Nodup := by
  have hp := runCols_preserve env (fun acc => acc.1.names.Nodup)
    (by
      intro acc n acc2 hP hd
      exact detStep_nodup env acc n acc2 hd hP)
    df.names (df, [], []) (df2, dc2, cv2) hnd h
  exact hp

theorem run_datetime_stable (env : Env) (df df2 : DF) (dc2 : List String)
    (cv2 : List (String × String))
    (h : auto_convert_datetime env df = .ok (df2, dc2, cv2)) :
    ∀ m c, lookup df m = some c → c.dtype = .datetime →
      ∃ c2, lookup df2 m = some c2 ∧ c2.dtype = .datetime := by
  have hp := runCols_preserve env
    (fun acc => ∀ m c, lookup df m = some c → c.dtype = .datetime →
      ∃ c2, lookup acc.1 m = some c2 ∧ c2.dtype = .datetime)
    (by
      intro acc n acc2 hP hd m c hm hdt
      obtain ⟨c2, hm2, hdt2⟩ := hP m c hm hdt
      exact detStep_datetime_stable env acc n acc2 hd m c2 hm2 hdt2)
    df.names (df, [], []) (df2, dc2, cv2) (fun m c hm hdt => ⟨c, hm, hdt⟩) h
  exact hp

theorem run_conversions (env : Env) (df df2 : DF) (dc2 : List String)
    (cv2 : List (String × String))
    (h : auto_convert_datetime env df = .ok (df2, dc2, cv2)) :
    ∀ p ∈ cv2, p.2 = p.1 ++ "_datetime" ∧ p.2 ∈ df2.names := by
  have hp := runCols_preserve env
    (fun acc => ∀ p ∈ acc.2.2, p.2 = p.1 ++ "_datetime" ∧ p.2 ∈ acc.1.names)
    (by
      intro acc n acc2 hP hd
      have hsub := detStep_names_subset env acc n acc2 hd
      rcases detStep_cases env acc n acc2 hd with hc | ⟨c0, w, hl, hb, hcv, hc⟩ | ⟨c0, hl, hcn, hc⟩
      · rw [hc]
        exact hP
      · intro p hp
        rw [hc] at hp
        dsimp only at hp
        rcases List.mem_append.mp hp with hp1 | hp1
        · obtain ⟨he, hm⟩ := hP p hp1
          exact ⟨he, hsub hm⟩
        · rw [List.mem_singleton] at hp1
          subst hp1
          refine ⟨rfl, ?_⟩
          rw [hc]
          exact self_mem_setCol_names acc.1 (n ++ "_datetime") .datetime w
      · intro p hp
        rw [hc] at hp
        dsimp only at hp
        obtain ⟨he, hm⟩ := hP p hp
        exact ⟨he, hsub hm⟩)
    df.names (df, [], []) (df2, dc2, cv2) (by intro p hp; simp at hp) h
  exact hp

/-! ### Totality on tables without all-missing columns -/

theorem sampleStep_ok (env : Env) (df : DF) (dc : List String)
    (cv : List (String × String)) (c : Col)
    (h0 : (env.sampleSel (nonNullVals c)).length ≠ 0) :
    sampleStep env (df, dc, cv) c =
      (if 7 * (env.sampleSel (nonNullVals c)).length <
          10 * parseCount env (env.sampleSel (nonNullVals c)) then
        .ok (setCol df c.name .datetime (c.vals.map (coerceVal env)), dc ++ [c.name], cv)
      else .ok (df, dc, cv)) := by
  simp only [sampleStep]
  rw [if_neg h0]

theorem detStep_ok_of_nonempty (env : Env) (acc : Acc) (n : String)
    (hS : ∀ l, (env.sampleSel l).length = min 10 l.length)
    (hv : ∀ c, lookup acc.1 n = some c → ∃ v ∈ c.vals, v ≠ Value.missing) :
    ∃ acc2, detStep env acc n = .ok acc2 := by
  obtain ⟨df, dc, cv⟩ := acc
  simp only [detStep]
  cases hl : lookup df n with
  | none => exact ⟨(df, dc, cv), rfl⟩
  | some c =>
    dsimp only
    have hne : (env.sampleSel (nonNullVals c)).length ≠ 0 := by
      obtain ⟨v, hv1, hv2⟩ := hv c hl
      have h1 : nonNullVals c ≠ [] := nonNullVals_ne_nil hv1 hv2
      have h2 : (nonNullVals c).length ≠ 0 := fun hh => h1 (List.length_eq_zero.mp hh)
      rw [hS]
      omega
    by_cases hb : isBigNumeric c
    · rw [if_pos hb]
      cases hs : toDatetimeUnit nsPerSec c.vals with
      | some w => exact ⟨_, rfl⟩
      | none =>
        cases hm : toDatetimeUnit nsPerMs c.vals with
        | some w => exact ⟨_, rfl⟩
        | none =>
          rw [sampleStep_ok env df dc cv c hne]
          by_cases h7 : 7 * (env.sampleSel (nonNullVals c)).length <
              10 * parseCount env (env.sampleSel (nonNullVals c))
          · rw [if_pos h7]
            exact ⟨_, rfl⟩
          · rw [if_neg h7]
            exact ⟨_, rfl⟩
    · rw [if_neg hb]
      rw [sampleStep_ok env df dc cv c hne]
      by_cases h7 : 7 * (env.sampleSel (nonNullVals c)).length <
          10 * parseCount env (env.sampleSel (nonNullVals c))
      · rw [if_pos h7]
        exact ⟨_, rfl⟩
      · rw [if_neg h7]
        exact ⟨_, rfl⟩

/-- Steps preserve the invariant that every still-to-be-visited column has
a non-missing value: the only columns a step writes are the visited one
(excluded by name uniqueness) and a freshly derived `_datetime` column,
which always contains at least one parsed date/time. -/
theorem detStep_keeps_nonmissing (env : Env) (acc : Acc) (n : String) (ns : List String)
    (acc2 : Acc) (hd : detStep env acc n = .ok acc2) (hnd : (n :: ns).Nodup)
    (hv : ∀ m ∈ n :: ns, ∀ c, lookup acc.1 m = some c → ∃ v ∈ c.vals, v ≠ Value.missing) :
    ∀ m ∈ ns, ∀ c, lookup acc2.1 m = some c → ∃ v ∈ c.vals, v ≠ Value.missing := by
  intro m hm c hc
  rcases detStep_cases env acc n acc2 hd with hcase | ⟨c0, w, hl, hb, hcv, hcase⟩ |
      ⟨c0, hl, hcn, hcase⟩
  · rw [hcase] at hc
    exact hv m (List.mem_cons_of_mem n hm) c hc
  · rw [hcase] at hc
    dsimp only at hc
    by_cases he : m = n ++ "_datetime"
    · subst he
      rw [lookup_setCol_self] at hc
      injection hc with hc
      subst hc
      obtain ⟨k, hk⟩ := isBigNumeric_exists_num hb
      have hw : Value.dt (k * nsPerSec) ∈ w ∨ Value.dt (k * nsPerMs) ∈ w := by
        rcases hcv with hs | ⟨_, hs⟩
        · exact Or.inl (toDatetimeUnit_mem_dt hs hk)
        · exact Or.inr (toDatetimeUnit_mem_dt hs hk)
      rcases hw with hw | hw
      · exact ⟨Value.dt (k * nsPerSec), hw, by simp⟩
      · exact ⟨Value.dt (k * nsPerMs), hw, by simp⟩
    · rw [lookup_setCol_ne _ _ _ he] at hc
      exact hv m (List.mem_cons_of_mem n hm) c hc
  · rw [hcase] at hc
    dsimp only at hc
    have hmn : m ≠ c0.name := by
      rw [hcn]
      intro hh
      subst hh
      exact (List.nodup_cons.mp hnd).1 hm
    rw [lookup_setCol_ne _ _ _ hmn] at hc
    exact hv m (List.mem_cons_of_mem n hm) c hc

theorem run_total (env : Env) (df : DF)
    (hS : ∀ l, (env.sampleSel l).length = min 10 l.length)
    (hnd : df.names.Nodup)
    (hv : ∀ c ∈ df.cols, ∃ v ∈ c.vals, v ≠ Value.missing) :
    ∃ out, auto_convert_datetime env df = .ok out := by
  have ht := runCols_total env
    (fun acc ns => ns.Nodup ∧
      ∀ m ∈ ns, ∀ c, lookup acc.1 m = some c → ∃ v ∈ c.vals, v ≠ Value.missing)
    (by
      intro acc n ns hq
      obtain ⟨hqnd, hqv⟩ := hq
      obtain ⟨acc2, hd⟩ := detStep_ok_of_nonempty env acc n hS
        (fun c hc => hqv n (List.mem_cons_self n ns) c hc)
      refine ⟨acc2, hd, (List.nodup_cons.mp hqnd).2, ?_⟩
      exact detStep_keeps_nonmissing env acc n ns acc2 hd hqnd hqv)
    df.names (df, [], [])
    ⟨hnd, by
      intro m _ c hc
      exact hv c (lookup_mem hc)⟩
  exact ht

/-! ### Idempotence machinery -/

theorem run_establishes_bigConvInv (env : Env) (df df1 : DF) (dc1 : List String)
    (cv1 : List (String × String)) (hnd : df.names.Nodup)
    (h : auto_convert_datetime env df = .ok (df1, dc1, cv1)) : BigConvInv df1 := by
  have hp := runCols_preserve_rem env
    (fun acc ns => ns.Nodup ∧ acc.1.names.Nodup ∧
      ∀ c ∈ acc.1.cols, isBigNumeric c = true → convOk c →
        (c.name ++ "_datetime") ∈ acc.1.names ∨ c.name ∈ ns)
    (by
      intro acc n ns acc2 hP hd
      obtain ⟨hPnd, hPdf, hPinv⟩ := hP
      refine ⟨(List.nodup_cons.mp hPnd).2, detStep_nodup env acc n acc2 hd hPdf, ?_⟩
      intro c2 hc2 hb hcv
      rcases hcase : detStep_cases env acc n acc2 hd with hu | ⟨c0, w, hl, hb0, hcv0, hu⟩ |
          ⟨c0, hl, hcn, hu⟩
      · rw [hu] at hc2 ⊢
        rcases hPinv c2 hc2 hb hcv with hi | hi
        · exact Or.inl hi
        · rcases List.mem_cons.mp hi with hi1 | hi1
          · exfalso
            have hl2 : lookup acc.1 n = some c2 := by
              rw [← hi1]
              exact lookup_of_nodup hPdf hc2
            obtain ⟨w, hdbig⟩ := detStep_big_conv env acc n c2 hl2 hb hcv
            rw [hu] at hd
            rw [hd] at hdbig
            injection hdbig with hdbig
            have h21 := congrArg (fun a : Acc => a.2.1) hdbig
            dsimp only at h21
            have hlen := congrArg List.length h21
            simp at hlen
          · exact Or.inr hi1
      · rw [hu] at hc2 ⊢
        dsimp only at hc2 ⊢
        rcases mem_setCol hc2 with hnew | hold
        · exfalso
          subst hnew
          simp [isBigNumeric] at hb
        · rcases hPinv c2 hold hb hcv with hi | hi
          · exact Or.inl (names_subset_setCol acc.1 _ _ _ hi)
          · rcases List.mem_cons.mp hi with hi1 | hi1
            · refine Or.inl ?_
              have hc20 : c2 = c0 := by
                have hl2 : lookup acc.1 n = some c2 := by
                  rw [← hi1]
                  exact lookup_of_nodup hPdf hold
                rw [hl2] at hl
                injection hl
              have hn0 : c0.name = n := lookup_name hl
              rw [hc20, hn0, ← hi1, hc20, hn0]
              exact self_mem_setCol_names acc.1 (n ++ "_datetime") .datetime w
            · exact Or.inr hi1
      · rw [hu] at hc2 ⊢
        dsimp only at hc2 ⊢
        rcases mem_setCol hc2 with hnew | hold
        · exfalso
          subst hnew
          simp [isBigNumeric] at hb
        · rcases hPinv c2 hold hb hcv with hi | hi
          · exact Or.inl (names_subset_setCol acc.1 _ _ _ hi)
          · rcases List.mem_cons.mp hi with hi1 | hi1
            · exfalso
              have hc20 : c2 = c0 := by
                have hl2 : lookup acc.1 n = some c2 := by
                  rw [← hi1]
                  exact lookup_of_nodup hPdf hold
                rw [hl2] at hl
                injection hl
              obtain ⟨w, hdbig⟩ := detStep_big_conv env acc n c0 hl (hc20 ▸ hb) (hc20 ▸ hcv)
              rw [hu] at hd
              rw [hd] at hdbig
              injection hdbig with hdbig
              have h21 := congrArg (fun a : Acc => a.2.1) hdbig
              dsimp only at h21
              have hsing := List.append_cancel_left h21
              injection hsing with hone
              rw [hcn] at hone
              exact name_ne_datetime_suffix n hone
            · exact Or.inr hi1)
    df.names (df, [], []) (df1, dc1, cv1)
    ⟨hnd, hnd, fun c hc _ _ => Or.inr (mem_names_of_mem_cols hc)⟩ h
  intro c hc hb hcv
  rcases hp.2.2 c hc hb hcv with hi | hi
  · exact hi
  · simp at hi

theorem run_names_stable (env : Env) (df1 df2 : DF) (dc2 : List String)
    (cv2 : List (String × String)) (hInv : BigConvInv df1)
    (h : auto_convert_datetime env df1 = .ok (df2, dc2, cv2)) :
    df2.names = df1.names := by
  have hp := runCols_preserve env
    (fun acc => acc.1.names = df1.names ∧ BigConvInv acc.1)
    (by
      intro acc n acc2 hP hd
      obtain ⟨hPn, hPi⟩ := hP
      rcases detStep_cases env acc n acc2 hd with hu | ⟨c0, w, hl, hb0, hcv0, hu⟩ |
          ⟨c0, hl, hcn, hu⟩
      · rw [hu]
        exact ⟨hPn, hPi⟩
      · have hcv : convOk c0 := by
          rcases hcv0 with hs | ⟨_, hs⟩
          · exact Or.inl ⟨w, hs⟩
          · exact Or.inr ⟨w, hs⟩
        have hmem : (n ++ "_datetime") ∈ acc.1.names := by
          have := hPi c0 (lookup_mem hl) hb0 hcv
          rw [lookup_name hl] at this
          exact this
        have hnames : (setCol acc.1 (n ++ "_datetime") Dtype.datetime w).names = acc.1.names :=
          setCol_names_mem _ _ hmem
        rw [hu]
        refine ⟨by rw [hnames]; exact hPn, ?_⟩
        intro c2 hc2 hb hcv2
        dsimp only at hc2 ⊢
        rw [hnames]
        rcases mem_setCol hc2 with hnew | hold
        · exfalso
          subst hnew
          simp [isBigNumeric] at hb
        · exact hPi c2 hold hb hcv2
      · have hmem : c0.name ∈ acc.1.names := mem_names_of_mem_cols (lookup_mem hl)
        have hnames : (setCol acc.1 c0.name Dtype.datetime
            (c0.vals.map (coerceVal env))).names = acc.1.names :=
          setCol_names_mem _ _ hmem
        rw [hu]
        refine ⟨by rw [hnames]; exact hPn, ?_⟩
        intro c2 hc2 hb hcv2
        dsimp only at hc2 ⊢
        rw [hnames]
        rcases mem_setCol hc2 with hnew | hold
        · exfalso
          subst hnew
          simp [isBigNumeric] at hb
        · exact hPi c2 hold hb hcv2)
    df1.names (df1, [], []) (df2, dc2, cv2) ⟨rfl, hInv⟩ h
  exact hp.1

/-! ### Claims -/

/-- C1: the claim states that a column whose values are all missing is
classified as not-a-date, left unmutated, and that detection completes
without error ("sampling the empty set must not fail").  On the code this
is false: for such a column `df[col].dropna()` is empty, the drawn sample
is empty, and `date_count / len(sample)` raises an uncaught
`ZeroDivisionError` that escapes `auto_convert_datetime`.  This closed
evaluation exhibits the crash on a one-column, all-missing table. -/
theorem c1_all_missing_crashes : auto_convert_datetime env0 dfC1 = .error () := rfl

/-- C2 counterexample: the claim "for every input table,
`auto_convert_datetime` returns normally" is false: on a table whose
second column is entirely missing, the detector raises (the empty-sample
division) instead of returning a result. -/
theorem c2_counterexample :
    auto_convert_datetime env0 dfC2x = .error () ∧
    ∀ out : Acc, auto_convert_datetime env0 dfC2x ≠ .ok out := by
  refine ⟨rfl, ?_⟩
  intro out h
  rw [show auto_convert_datetime env0 dfC2x = Except.error () from rfl] at h
  exact Except.noConfusion h

/-- C2 (amended): for every table with pairwise-distinct column names in
which every column holds at least one non-missing value — the restriction
the empty-sample division forces — `auto_convert_datetime` returns
normally with its (table, date columns, conversions) triple, for every
sampler obeying the `min 10 n` size law of `Series.sample`; individual
parse failures never escape, they only leave the column unclassified. -/
theorem c2_no_fatal_error (env : Env) (df : DF)
    (hS : ∀ l, (env.sampleSel l).length = min 10 l.length)
    (hnd : df.names.Nodup)
    (hv : ∀ c ∈ df.cols, ∃ v ∈ c.vals, v ≠ Value.missing) :
    ∃ out, auto_convert_datetime env df = .ok out :=
  run_total env df hS hnd hv

/-- C2 witness: a concrete table with unparseable text and missing cells
(but no all-missing column) on which detection completes normally. -/
theorem c2_no_fatal_error_witness : ∃ out, auto_convert_datetime env0 dfC2w = .ok out :=
  c2_no_fatal_error env0 dfC2w
    (by intro l; simp [env0, List.length_take]) (by decide) (by decide)

/-- C3: a column that reaches the sampling phase is converted to date/time
type and marked as a date column exactly when the parsed fraction of the
sample strictly exceeds 0.7 — rendered exactly as
`7 * len(sample) < 10 * date_count` — and in particular at a fraction of
exactly 0.7 (for example 7 parsed out of 10 sampled) the state is returned
unchanged: the column is neither converted nor classified. -/
theorem c3_threshold_exclusive (env : Env) (df : DF) (dc : List String)
    (cv : List (String × String)) (c : Col)
    (hne : (env.sampleSel (nonNullVals c)).length ≠ 0) :
    (7 * (env.sampleSel (nonNullVals c)).length <
        10 * parseCount env (env.sampleSel (nonNullVals c)) →
      sampleStep env (df, dc, cv) c =
        .ok (setCol df c.name .datetime (c.vals.map (coerceVal env)), dc ++ [c.name], cv)) ∧
    (¬ (7 * (env.sampleSel (nonNullVals c)).length <
        10 * parseCount env (env.sampleSel (nonNullVals c))) →
      sampleStep env (df, dc, cv) c = .ok (df, dc, cv)) := by
  constructor
  · intro h7
    rw [sampleStep_ok env df dc cv c hne, if_pos h7]
  · intro h7
    rw [sampleStep_ok env df dc cv c hne, if_neg h7]

/-- C3 witness: on a ten-value column of which exactly 7 parse (fraction
exactly 0.7), the sampling phase leaves the state unchanged. -/
theorem c3_threshold_exclusive_witness :
    sampleStep env0 (⟨[colW3]⟩, [], []) colW3 = .ok (⟨[colW3]⟩, [], []) :=
  (c3_threshold_exclusive env0 ⟨[colW3]⟩ [] [] colW3 (by decide)).2 (by decide)

/-- C4: a numeric column above the 1e9 threshold whose seconds
interpretation fails but whose milliseconds interpretation succeeds yields
exactly one derived column — the frame name list grows by the single
name `<col>_datetime` — which is recorded in the conversions mapping and
marked as a recognised date column. -/
theorem c4_ms_fallback_single_column (env : Env) (df : DF) (dc : List String)
    (cv : List (String × String)) (name : String) (c : Col) (w : List Value)
    (hl : lookup df name = some c) (hb : isBigNumeric c = true)
    (hs : toDatetimeUnit nsPerSec c.vals = none)
    (hm : toDatetimeUnit nsPerMs c.vals = some w) :
    detStep env (df, dc, cv) name =
      .ok (setCol df (name ++ "_datetime") .datetime w,
        dc ++ [name ++ "_datetime"], cv ++ [(name, name ++ "_datetime")]) ∧
    ((name ++ "_datetime") ∉ df.names →
      (setCol df (name ++ "_datetime") .datetime w).names = df.names ++ [name ++ "_datetime"]) := by
  refine ⟨?_, fun hnm => setCol_names_not_mem _ _ hnm⟩
  simp only [detStep]
  rw [hl]
  dsimp only
  rw [if_pos hb, hs, hm]

/-- C4 witness: a single value of 1.7e12 overflows the seconds
interpretation, parses under milliseconds, and produces the one derived
column `t_datetime`. -/
theorem c4_ms_fallback_single_column_witness :
    detStep env0 (dfW4, [], []) "t" =
      .ok (setCol dfW4 "t_datetime" .datetime [Value.dt 1700000000000000000],
        ["t_datetime"], [("t", "t_datetime")]) ∧
    ("t_datetime" ∉ dfW4.names →
      (setCol dfW4 "t_datetime" .datetime [Value.dt 1700000000000000000]).names =
        dfW4.names ++ ["t_datetime"]) :=
  c4_ms_fallback_single_column env0 dfW4 [] [] "t" colW4 [Value.dt 1700000000000000000]
    (by decide) (by decide) (by decide) (by decide)

/-- C5: a numeric column above the 1e9 threshold whose every value parses
under the seconds interpretation yields the new column `<col>_datetime`
holding the parsed values, records the association, marks the derived
column as a date column, stops processing the column there (the returned
state is exactly the timestamp-path one, no sampling is applied), and
leaves the original column present and untouched. -/
theorem c5_seconds_path (env : Env) (df : DF) (dc : List String)
    (cv : List (String × String)) (name : String) (c : Col) (w : List Value)
    (hl : lookup df name = some c) (hb : isBigNumeric c = true)
    (hs : toDatetimeUnit nsPerSec c.vals = some w) :
    detStep env (df, dc, cv) name =
      .ok (setCol df (name ++ "_datetime") .datetime w,
        dc ++ [name ++ "_datetime"], cv ++ [(name, name ++ "_datetime")]) ∧
    lookup (setCol df (name ++ "_datetime") .datetime w) name = some c ∧
    ((name ++ "_datetime") ∉ df.names →
      (setCol df (name ++ "_datetime") .datetime w).names = df.names ++ [name ++ "_datetime"]) := by
  refine ⟨?_, ?_, fun hnm => setCol_names_not_mem _ _ hnm⟩
  · simp only [detStep]
    rw [hl]
    dsimp only
    rw [if_pos hb, hs]
  · rw [lookup_setCol_ne _ _ _ (name_ne_datetime_suffix name)]
    exact hl

/-- C5 witness: the end-to-end scenario of the specification — the column
`ts` of the three seconds timestamps 1700000000, 1700086400 and 1700172800
yields the new column `ts_datetime` with the three parsed values one day
apart, while `ts` itself stays numeric and unchanged. -/
theorem c5_seconds_path_witness :
    detStep env0 (dfW5, [], []) "ts" =
      .ok (setCol dfW5 "ts_datetime" .datetime tsDtVals,
        ["ts_datetime"], [("ts", "ts_datetime")]) ∧
    lookup (setCol dfW5 "ts_datetime" .datetime tsDtVals) "ts" = some colW5 ∧
    ("ts_datetime" ∉ dfW5.names →
      (setCol dfW5 "ts_datetime" .datetime tsDtVals).names = dfW5.names ++ ["ts_datetime"]) :=
  c5_seconds_path env0 dfW5 [] [] "ts" colW5 tsDtVals (by decide) (by decide) (by decide)

/-- C6: when the parsed fraction of the sample strictly exceeds 0.7, the
whole column is converted in place to date/time type through the coercing
converter, every cell whose string the host cannot parse becomes a missing
value instead of raising, and the phase returns normally so detection
continues with the next column. -/
theorem c6_coerce_in_place (env : Env) (df : DF) (dc : List String)
    (cv : List (String × String)) (c : Col)
    (hne : (env.sampleSel (nonNullVals c)).length ≠ 0)
    (h7 : 7 * (env.sampleSel (nonNullVals c)).length <
      10 * parseCount env (env.sampleSel (nonNullVals c))) :
    sampleStep env (df, dc, cv) c =
      .ok (setCol df c.name .datetime (c.vals.map (coerceVal env)), dc ++ [c.name], cv) ∧
    ∀ s, env.pdParseStr s = none → coerceVal env (Value.str s) = Value.missing := by
  constructor
  · rw [sampleStep_ok env df dc cv c hne, if_pos h7]
  · intro s hs
    simp [coerceVal, hs]

/-- C6 witness: on a ten-value column of which 8 parse (0.8 > 0.7) the
column is converted in place, and each unparseable cell coerces to
missing. -/
theorem c6_coerce_in_place_witness :
    sampleStep env0 (⟨[colW6]⟩, [], []) colW6 =
      .ok (setCol ⟨[colW6]⟩ colW6.name .datetime (colW6.vals.map (coerceVal env0)),
        [] ++ [colW6.name], []) ∧
    ∀ s, env0.pdParseStr s = none → coerceVal env0 (Value.str s) = Value.missing :=
  c6_coerce_in_place env0 ⟨[colW6]⟩ [] [] colW6 (by decide) (by decide)

/-- C7: detection is idempotent in the claimed sense: when a second pass
over the first pass output completes, it derives no duplicate
`_datetime` column — the second frame has exactly the first frame
column-name list, which is duplicate-free — and every column that is
date/time-typed after the first pass is still a date/time-typed column of
the second frame (it is never reclassified to any other type). -/
theorem c7_idempotent (env : Env) (df df1 df2 : DF) (dc1 dc2 : List String)
    (cv1 cv2 : List (String × String)) (hnd : df.names.Nodup)
    (h1 : auto_convert_datetime env df = .ok (df1, dc1, cv1))
    (h2 : auto_convert_datetime env df1 = .ok (df2, dc2, cv2)) :
    df2.names = df1.names ∧ df2.names.Nodup ∧
    ∀ m c, lookup df1 m = some c → c.dtype = .datetime →
      ∃ c2, lookup df2 m = some c2 ∧ c2.dtype = .datetime := by
  have hInv := run_establishes_bigConvInv env df df1 dc1 cv1 hnd h1
  have hnd1 : df1.names.Nodup := run_nodup env df df1 dc1 cv1 h1 hnd
  have hst := run_names_stable env df1 df2 dc2 cv2 hInv h2
  refine ⟨hst, by rw [hst]; exact hnd1, ?_⟩
  exact run_datetime_stable env df1 df2 dc2 cv2 h2

/-- C7 witness: two concrete passes over a table with a seconds-timestamp
column and a convertible text column; the second pass keeps the first
pass column list and all its date/time columns. -/
theorem c7_idempotent_witness :
    df1c.names = df1c.names ∧ df1c.names.Nodup ∧
    ∀ m c, lookup df1c m = some c → c.dtype = .datetime →
      ∃ c2, lookup df1c m = some c2 ∧ c2.dtype = .datetime :=
  c7_idempotent env0 dfC7 df1c df1c ["ts_datetime", "d"] ["ts_datetime"]
    [("ts", "ts_datetime")] [("ts", "ts_datetime")] (by decide) rfl rfl

/-- C8: every entry of the conversions mapping returned by a completed
detection pass associates a source name to exactly that name suffixed with
`_datetime`, and the derived name is a column name of the returned frame. -/
theorem c8_conversions_wellformed (env : Env) (df df2 : DF) (dc2 : List String)
    (cv2 : List (String × String))
    (h : auto_convert_datetime env df = .ok (df2, dc2, cv2)) :
    ∀ p ∈ cv2, p.2 = p.1 ++ "_datetime" ∧ p.2 ∈ df2.names :=
  run_conversions env df df2 dc2 cv2 h

/-- C8 witness: the concrete seconds-timestamp table produces the single
conversion entry `(ts, ts_datetime)`, whose derived name is a column of
the returned frame. -/
theorem c8_conversions_wellformed_witness :
    ("ts", "ts_datetime").2 = ("ts", "ts_datetime").1 ++ "_datetime" ∧
    ("ts", "ts_datetime").2 ∈ (DF.mk [colW5, ⟨"ts_datetime", Dtype.datetime, tsDtVals⟩]).names :=
  c8_conversions_wellformed env0 dfW5 ⟨[colW5, ⟨"ts_datetime", Dtype.datetime, tsDtVals⟩]⟩
    ["ts_datetime"] [("ts", "ts_datetime")] rfl ("ts", "ts_datetime") (by decide)

/-- C9 counterexample: the claim states that a user-chosen format string
mismatched to the column data is reported as a failure with the error
text and the table is left unmodified.  On the code every branch of the
handler passes `errors=coerce`, so a well-formed but mismatched format
does not raise: a new all-missing column is created, recorded among the
date columns, and a success message is shown — the frame column list
changes. -/
theorem c9_counterexample :
    convertButtonHandler env0 dfC9 [] "d" "dconv" .customFmt "%d/%m/%Y" =
      (setCol dfC9 "dconv" .datetime [Value.missing], ["dconv"],
        .success ("created new date column: " ++ "dconv")) ∧
    (setCol dfC9 "dconv" .datetime [Value.missing]).names ≠ dfC9.names := by
  refine ⟨rfl, ?_⟩
  decide

/-- C9 (amended): with a well-formed format string the manual conversion
never reports a failure, even when the format matches none of the data:
the handler stores the coerced values (unparseable cells become missing)
under the new column name and shows a success message; only when the
conversion call itself raises — an ill-formed format string — is the
failure reported with the underlying error text and the table left
unmodified. -/
theorem c9_coerce_manual (env : Env) (df : DF) (dateCols : List String)
    (dateCol newCol fmt : String) (c : Col) (hc : lookup df dateCol = some c) :
    (env.strpValid fmt = true →
      convertButtonHandler env df dateCols dateCol newCol .customFmt fmt =
        (setCol df newCol .datetime (c.vals.map (coerceFmtVal env fmt)),
         if newCol ∈ dateCols then dateCols else dateCols ++ [newCol],
         .success ("created new date column: " ++ newCol)) ∧
      ∀ s, env.strpParse fmt s = none → coerceFmtVal env fmt (Value.str s) = Value.missing) ∧
    (env.strpValid fmt = false →
      convertButtonHandler env df dateCols dateCol newCol .customFmt fmt =
        (df, dateCols,
         .failure ("date conversion failed: " ++ ("bad directive in format " ++ fmt)))) := by
  constructor
  · intro hv
    constructor
    · simp only [convertButtonHandler, tryManualConvert]
      rw [hc]
      dsimp only
      simp only [fmtConvert]
      rw [if_pos hv]
    · intro s hs
      simp [coerceFmtVal, hs]
  · intro hv
    simp only [convertButtonHandler, tryManualConvert]
    rw [hc]
    dsimp only
    simp only [fmtConvert]
    rw [if_neg (by rw [hv]; exact Bool.false_ne_true)]

/-- C9 witness: the concrete mismatched-format conversion of the
counterexample, through the amended statement. -/
theorem c9_coerce_manual_witness :
    ((env0.strpValid "%d/%m/%Y" = true →
      convertButtonHandler env0 dfC9 [] "d" "dconv" .customFmt "%d/%m/%Y" =
        (setCol dfC9 "dconv" .datetime
          ((Col.mk "d" Dtype.text [Value.str "hello"]).vals.map (coerceFmtVal env0 "%d/%m/%Y")),
         if "dconv" ∈ ([] : List String) then ([] : List String) else [] ++ ["dconv"],
         .success ("created new date column: " ++ "dconv")) ∧
      ∀ s, env0.strpParse "%d/%m/%Y" s = none →
        coerceFmtVal env0 "%d/%m/%Y" (Value.str s) = Value.missing) ∧
    (env0.strpValid "%d/%m/%Y" = false →
      convertButtonHandler env0 dfC9 [] "d" "dconv" .customFmt "%d/%m/%Y" =
        (dfC9, [],
         .failure ("date conversion failed: " ++ ("bad directive in format " ++ "%d/%m/%Y"))))) :=
  c9_coerce_manual env0 dfC9 [] "d" "dconv" "%d/%m/%Y"
    ⟨"d", Dtype.text, [Value.str "hello"]⟩ (by decide)

/-- C10: a completed detection pass removes no column and no row: the
input frame column-name list is an initial segment of the output (so
every input column survives, in its original relative order), and when
every input column has N rows, every output column still has N rows. -/
theorem c10_no_column_or_row_loss (env : Env) (df df2 : DF) (dc2 : List String)
    (cv2 : List (String × String)) (N : Nat)
    (h : auto_convert_datetime env df = .ok (df2, dc2, cv2))
    (hlen : ∀ c ∈ df.cols, c.vals.length = N) :
    (∃ ext, df2.names = df.names ++ ext) ∧ ∀ c ∈ df2.cols, c.vals.length = N :=
  ⟨run_names_extend env df df2 dc2 cv2 h, run_lengths env df df2 dc2 cv2 N h hlen⟩

/-- C10 witness: the concrete first pass over the two-column table keeps
both original columns in order (extending the list by `ts_datetime`) and
every column of the output still has its 3 or 2 rows — instantiated with
the uniform-row-count variant on the seconds table. -/
theorem c10_no_column_or_row_loss_witness :
    (∃ ext, (DF.mk [colW5, ⟨"ts_datetime", Dtype.datetime, tsDtVals⟩]).names =
      dfW5.names ++ ext) ∧
    ∀ c ∈ (DF.mk [colW5, ⟨"ts_datetime", Dtype.datetime, tsDtVals⟩]).cols, c.vals.length = 3 :=
  c10_no_column_or_row_loss env0 dfW5 ⟨[colW5, ⟨"ts_datetime", Dtype.datetime, tsDtVals⟩]⟩
    ["ts_datetime"] [("ts", "ts_datetime")] 3 rfl (by decide)

end DataAnalysis
